import Mathlib

/-!
Verification development for the EventHandler library (event.h version 1.3.1,
listener_src.cpp, event_handler_src.cpp).

Shallow embedding:
 * An event object (`EvObj`) is the state of one `Event<T>` instance: a payload
   state of type `σ`, the virtual methods `trigger : σ → Bool` and
   `reset : σ → σ` supplied by the concrete subclass (modelled as record
   fields, which is exactly what a vtable provides), and the condition-variable
   pointer `cv` stored by `EventBase` (modelled as `Option ListenerId`, `none`
   being the null pointer).
 * Pointers `EventBase*` are modelled as natural-number identities (`EventId`);
   the heap is a total function `EventId → EvObj σ` (pointer dereference is
   function application, assignment through a pointer is `Function.update`).
 * `Listener::event2func` is a `std::map<EventBase*, std::vector<EventFunc>>`;
   it is modelled as an association list whose keys appear in strictly
   increasing order (the ordered-map invariant), iterated front to back.
 * Callback functions are opaque identities (`FuncId`); a dispatch cycle emits
   a trace of `DAction`s recording each callback invocation (with the event
   passed to it) and each `reset()` call, in execution order.
 * Thread/cv effects of `Listener::start/stop` and the delete operations of
   `EventHandler::cleanup` are likewise recorded as traces of opaque actions.
 * The per-type static instance registry of `Event<T>` is a list of instance
   addresses; the constructor appends (`push_back`), the destructor erases the
   node the constructor inserted.  Since live objects have distinct addresses
   (the registry never holds duplicates), erasing via the stored iterator is
   erasing the unique entry equal to this instance's address.
-/

/-- Address of an `EventBase` object (the C++ code keys maps by `EventBase*`). -/
abbrev EventId := Nat

/-- Identity of an `EventFunc` callback (a function pointer in the C++ code). -/
abbrev FuncId := Nat

/-- Identity of a listener, standing for the address of its condition variable
`&this->cv`. -/
abbrev ListenerId := Nat

/-- One `Event<T>` instance: subclass state `state`, the virtual methods
`trigger`/`reset`, and the `EventBase::cv` pointer (`none` = `nullptr`). -/
structure EvObj (σ : Type) where
  state : σ
  trigger : σ → Bool
  reset : σ → σ
  cv : Option ListenerId

/-- `ev->trigger()`: evaluate the virtual trigger predicate on the current
state. -/
def EvObj.triggered {σ : Type} (ev : EvObj σ) : Bool :=
  ev.trigger ev.state

/-- `ev->reset()`: run the virtual reset action on the current state. -/
def EvObj.applyReset {σ : Type} (ev : EvObj σ) : EvObj σ :=
  { ev with state := ev.reset ev.state }

/-- `EventBase::set_cv(_cv)`: `this->cv = _cv;`. -/
def EvObj.set_cv {σ : Type} (ev : EvObj σ) (c : Option ListenerId) : EvObj σ :=
  { ev with cv := c }

/-- The `EventBase` constructor: `this->cv = nullptr;` (the subclass supplies
`state`, `trigger` and `reset`). -/
def EventBase.init {σ : Type} (st : σ) (tf : σ → Bool) (rf : σ → σ) : EvObj σ :=
  ⟨st, tf, rf, none⟩

/-- `Event<T>::internal()`: `if (cv != nullptr) cv->notify_one();`.
Returns the listener whose condition variable is notified, `none` when the
null check fails and nobody is woken. -/
def EvObj.internal {σ : Type} (ev : EvObj σ) : Option ListenerId :=
  match ev.cv with
  | some c => some c
  | none => none

/-- The registration table `std::map<EventBase*, std::vector<EventFunc>>`,
as an association list in key order. -/
abbrev RegTable := List (EventId × List FuncId)

/-- `this->event2func[&event].push_back(func)`: ordered-map indexing creates
the key with an empty vector if absent, then appends `func`. -/
def mapInsert : RegTable → EventId → FuncId → RegTable
  | [], e, f => [(e, [f])]
  | (k, fs) :: rest, e, f =>
    if e < k then (e, [f]) :: (k, fs) :: rest
    else if e = k then (k, fs ++ [f]) :: rest
    else (k, fs) :: mapInsert rest e f

/-- `std::map::find`-style lookup of the callback vector bound to `e`. -/
def mapLookup : RegTable → EventId → Option (List FuncId)
  | [], _ => none
  | (k, fs) :: rest, e => if k = e then some fs else mapLookup rest e

/-- The key sequence of a registration table. -/
def keyList (t : RegTable) : List EventId := t.map Prod.fst

/-- Strictly increasing key sequence: the `std::map` ordering invariant. -/
def sortedKeys : List EventId → Bool
  | [] => true
  | [_] => true
  | a :: b :: rest => decide (a < b) && sortedKeys (b :: rest)

/-- A table satisfies the ordered-map invariant. -/
def tableSorted (t : RegTable) : Bool := sortedKeys (keyList t)

/-- Observable state of a `Listener`: its registration table and the atomic
`running` flag. -/
structure ListenerState where
  event2func : RegTable
  running : Bool
deriving DecidableEq

/-- The `Listener` constructor: `this->running = false;` and the map is
default-constructed empty. -/
def Listener.init : ListenerState := ⟨[], false⟩

/-- `Listener::register_event(event, func)`: appends `func` to the event's
callback vector and rebinds the event's condition-variable pointer to the
registering listener (`event.set_cv(&this->cv)`).  `lid` is the identity of
the registering listener's condition variable, `e` the event's address. -/
def Listener.register_event {σ : Type} (lid : ListenerId) (l : ListenerState)
    (heap : EventId → EvObj σ) (e : EventId) (f : FuncId) :
    ListenerState × (EventId → EvObj σ) :=
  ({ l with event2func := mapInsert l.event2func e f },
   Function.update heap e ((heap e).set_cv (some lid)))

/-- `Listener::event_has_happened`: walk the table in iteration order and
return the first entry whose event's `trigger()` is true, together with its
callback vector; `none` models the `return false` / null out-params path. -/
def Listener.event_has_happened {σ : Type} (heap : EventId → EvObj σ) :
    RegTable → Option (EventId × List FuncId)
  | [] => none
  | (e, fs) :: rest =>
    if (heap e).triggered then some (e, fs)
    else Listener.event_has_happened heap rest

/-- Observable steps of one dispatch: a callback call (recording which
callback and which event was passed to it by reference) or a `reset()` call. -/
inductive DAction where
  | call (f : FuncId) (e : EventId)
  | reset (e : EventId)
deriving DecidableEq

/-- The event an action is about. -/
def DAction.eventOf : DAction → EventId
  | .call _ e => e
  | .reset e => e

/-- One wake cycle of the body of `Listener::listen`: the condition-variable
wait returns when `!running` or some registered event is triggered; if the
flag is still set and an event was found, every callback bound to it runs in
vector order on the event, then the event is `reset()`.  Returns the updated
heap and the trace of observable actions of the cycle. -/
def Listener.listen_cycle {σ : Type} (running : Bool)
    (heap : EventId → EvObj σ) (table : RegTable) :
    (EventId → EvObj σ) × List DAction :=
  if running then
    match Listener.event_has_happened heap table with
    | some (e, fs) =>
      (Function.update heap e ((heap e).applyReset),
       fs.map (fun f => DAction.call f e) ++ [DAction.reset e])
    | none => (heap, [])
  else (heap, [])

/-- Observable thread effects of `Listener::start`/`Listener::stop`. -/
inductive LAction where
  | spawnThread
  | notifyCV
  | joinThread
deriving DecidableEq

/-- `Listener::start()`: only when not running, set the flag and spawn the
worker thread. -/
def Listener.start (l : ListenerState) : ListenerState × List LAction :=
  if l.running then (l, [])
  else ({ l with running := true }, [LAction.spawnThread])

/-- `Listener::stop()`: only when running, clear the flag, signal the
condition variable, and join the worker thread. -/
def Listener.stop (l : ListenerState) : ListenerState × List LAction :=
  if l.running then ({ l with running := false }, [LAction.notifyCV, LAction.joinThread])
  else (l, [])

/-- `enum ListenerType`. -/
inductive ListenerType where
  | DYNAMIC_LISTENER
  | STATIC_LISTENER
deriving DecidableEq

/-- Observable state of an `EventHandler`: the listener pointer vector, the
ownership mode, and the running flag. -/
structure EventHandlerState where
  listeners : List ListenerId
  listener_type : ListenerType
  running : Bool
deriving DecidableEq

/-- Observable effects of `EventHandler` lifecycle calls on listener objects:
`l->stop()` and `delete l`. -/
inductive HAction where
  | stopListener (l : ListenerId)
  | destroyListener (l : ListenerId)
deriving DecidableEq

/-- Extract the listener destroyed by an action, if any. -/
def HAction.destroyed : HAction → Option ListenerId
  | .destroyListener l => some l
  | .stopListener _ => none

/-- `EventHandler::EventHandler(ListenerType lt)`: running is false, mode is
`lt`, the vector is default-constructed empty. -/
def EventHandler.ctor (lt : ListenerType) : EventHandlerState := ⟨[], lt, false⟩

/-- `EventHandler::EventHandler(void)`: delegates to the `ListenerType`
constructor with `DYNAMIC_LISTENER`. -/
def EventHandler.ctorDefault : EventHandlerState :=
  EventHandler.ctor ListenerType.DYNAMIC_LISTENER

/-- `EventHandler::stop()`: only when running, clear the flag and call
`l->stop()` on every listener in order. -/
def EventHandler.stop (h : EventHandlerState) : EventHandlerState × List HAction :=
  if h.running then ({ h with running := false }, h.listeners.map HAction.stopListener)
  else (h, [])

/-- `EventHandler::cleanup()`: call `stop()`; then, only in
`DYNAMIC_LISTENER` mode, `delete` every contained listener; finally
`listeners.clear()` unconditionally. -/
def EventHandler.cleanup (h : EventHandlerState) : EventHandlerState × List HAction :=
  let s := EventHandler.stop h
  let destroyed :=
    if s.1.listener_type = ListenerType.DYNAMIC_LISTENER
    then s.1.listeners.map HAction.destroyListener
    else []
  ({ s.1 with listeners := [] }, s.2 ++ destroyed)

/-- `EventHandler::add_listener(l)`: `if (!running) listeners.push_back(l);`. -/
def EventHandler.add_listener (h : EventHandlerState) (l : ListenerId) :
    EventHandlerState :=
  if h.running then h else { h with listeners := h.listeners ++ [l] }

/-- Lifetime operations on instances of one concrete event type `T`. -/
inductive RegOp where
  | construct (a : Nat)
  | destruct (a : Nat)
deriving DecidableEq

/-- Body of `Event<T>::Event()`: `instances.push_back(this)` (the stored
iterator points at the appended node). -/
def Event_construct (instances : List Nat) (a : Nat) : List Nat :=
  instances ++ [a]

/-- Body of `Event<T>::~Event()`: `instances.erase(this->instance_iter)` —
the node the constructor appended, i.e. the unique entry holding this
instance's address while the registry is duplicate-free. -/
def Event_destruct (instances : List Nat) (a : Nat) : List Nat :=
  instances.erase a

/-- Run a sequence of constructor/destructor calls against the per-type
registry. -/
def runRegistry (instances : List Nat) : List RegOp → List Nat
  | [] => instances
  | RegOp.construct a :: ops => runRegistry (Event_construct instances a) ops
  | RegOp.destruct a :: ops => runRegistry (Event_destruct instances a) ops

/-- Well-formed lifetime traces: a constructor runs only at a fresh address
(distinct live objects have distinct addresses) and a destructor only on a
live instance. -/
def wfOps (instances : List Nat) : List RegOp → Bool
  | [] => true
  | RegOp.construct a :: ops =>
    !(decide (a ∈ instances)) && wfOps (Event_construct instances a) ops
  | RegOp.destruct a :: ops =>
    decide (a ∈ instances) && wfOps (Event_destruct instances a) ops

/-- Whether instance `a` is alive after a lifetime trace, given whether it was
alive before: its last constructor/destructor event decides. -/
def liveAfter (b : Bool) : List RegOp → Nat → Bool
  | [], _ => b
  | RegOp.construct x :: ops, a => liveAfter (if x = a then true else b) ops a
  | RegOp.destruct x :: ops, a => liveAfter (if x = a then false else b) ops a

/-! ## Theorems -/

/-- C6: `add_listener` on a running handler is a silent no-op (the whole
state, in particular the listener count, is unchanged); on a non-running
handler it appends the listener to the collection. -/
theorem add_listener_running_noop (h : EventHandlerState) (l : ListenerId) :
    (h.running = true → EventHandler.add_listener h l = h) ∧
    (h.running = false →
      (EventHandler.add_listener h l).listeners = h.listeners ++ [l] ∧
      (EventHandler.add_listener h l).running = h.running ∧
      (EventHandler.add_listener h l).listener_type = h.listener_type) := by
  constructor
  · intro hr
    simp [EventHandler.add_listener, hr]
  · intro hr
    simp [EventHandler.add_listener, hr]

/-- Witness for C6 at concrete handlers. -/
theorem add_listener_running_noop_witness :
    EventHandler.add_listener ⟨[5], ListenerType.DYNAMIC_LISTENER, true⟩ 7 =
      ⟨[5], ListenerType.DYNAMIC_LISTENER, true⟩ ∧
    (EventHandler.add_listener ⟨[5], ListenerType.DYNAMIC_LISTENER, false⟩ 7).listeners =
      [5, 7] :=
  ⟨(add_listener_running_noop ⟨[5], ListenerType.DYNAMIC_LISTENER, true⟩ 7).1 rfl,
   ((add_listener_running_noop ⟨[5], ListenerType.DYNAMIC_LISTENER, false⟩ 7).2 rfl).1⟩

/-- C7: `Listener::start()` on an already-running listener returns the state
unchanged and spawns no thread; `Listener::stop()` on an idle listener
returns the state unchanged, signalling no condition variable and joining no
thread. -/
theorem listener_start_stop_idempotent (l : ListenerState) :
    (l.running = true → Listener.start l = (l, [])) ∧
    (l.running = false → Listener.stop l = (l, [])) := by
  constructor
  · intro hr
    simp [Listener.start, hr]
  · intro hr
    simp [Listener.stop, hr]

/-- Witness for C7 at concrete listeners. -/
theorem listener_start_stop_idempotent_witness :
    Listener.start ⟨[(0, [1])], true⟩ = (⟨[(0, [1])], true⟩, []) ∧
    Listener.stop ⟨[(0, [1])], false⟩ = (⟨[(0, [1])], false⟩, []) :=
  ⟨(listener_start_stop_idempotent ⟨[(0, [1])], true⟩).1 rfl,
   (listener_start_stop_idempotent ⟨[(0, [1])], false⟩).2 rfl⟩

/-- C5: `EventHandler::cleanup()` first performs `stop()`, then destroys each
contained listener exactly when the ownership mode is `DYNAMIC_LISTENER`, and
in every mode leaves the listener collection empty (with the running flag
cleared); in `STATIC_LISTENER` mode no listener object is destroyed. -/
theorem cleanup_stops_destroys_clears (h : EventHandlerState) :
    (EventHandler.cleanup h).1.listeners = [] ∧
    (EventHandler.cleanup h).1.running = false ∧
    (EventHandler.cleanup h).2 =
      (EventHandler.stop h).2 ++
        (if h.listener_type = ListenerType.DYNAMIC_LISTENER
         then h.listeners.map HAction.destroyListener
         else []) ∧
    (h.listener_type = ListenerType.STATIC_LISTENER →
      ∀ l, HAction.destroyListener l ∉ (EventHandler.cleanup h).2) := by
  refine ⟨?_, ?_, ?_, ?_⟩
  · by_cases hr : h.running <;>
      simp [EventHandler.cleanup, EventHandler.stop, hr]
  · by_cases hr : h.running <;>
      simp [EventHandler.cleanup, EventHandler.stop, hr]
  · by_cases hr : h.running <;>
      simp [EventHandler.cleanup, EventHandler.stop, hr]
  · intro hstatic l
    have hne : h.listener_type ≠ ListenerType.DYNAMIC_LISTENER := by
      rw [hstatic]; intro hc; cases hc
    by_cases hr : h.running <;>
      simp [EventHandler.cleanup, EventHandler.stop, hr, hne]

/-- Witness for C5 at a concrete borrowed-mode handler. -/
theorem cleanup_stops_destroys_clears_witness :
    (EventHandler.cleanup ⟨[1, 2], ListenerType.STATIC_LISTENER, true⟩).1.listeners = [] ∧
    HAction.destroyListener 1 ∉
      (EventHandler.cleanup ⟨[1, 2], ListenerType.STATIC_LISTENER, true⟩).2 :=
  ⟨(cleanup_stops_destroys_clears ⟨[1, 2], ListenerType.STATIC_LISTENER, true⟩).1,
   (cleanup_stops_destroys_clears ⟨[1, 2], ListenerType.STATIC_LISTENER, true⟩).2.2.2 rfl 1⟩

/-- C10: the default `EventHandler` constructor produces the same state as the
`DYNAMIC_LISTENER` constructor (ownership mode is owned), and under that
ownership mode `cleanup()` emits a `delete` for every listener the handler
still contains, in order. -/
theorem default_handler_is_dynamic :
    EventHandler.ctorDefault = EventHandler.ctor ListenerType.DYNAMIC_LISTENER ∧
    EventHandler.ctorDefault.listener_type = ListenerType.DYNAMIC_LISTENER ∧
    ∀ (ls : List ListenerId) (r : Bool),
      ((EventHandler.cleanup ⟨ls, EventHandler.ctorDefault.listener_type, r⟩).2.filterMap
        HAction.destroyed) = ls := by
  refine ⟨rfl, rfl, ?_⟩
  intro ls r
  have hmap : ∀ xs : List ListenerId,
      (List.map HAction.stopListener xs).filterMap HAction.destroyed = [] := by
    intro xs
    induction xs with
    | nil => rfl
    | cons x xs ih => simp [HAction.destroyed, ih]
  have hmap2 : ∀ xs : List ListenerId,
      (List.map HAction.destroyListener xs).filterMap HAction.destroyed = xs := by
    intro xs
    induction xs with
    | nil => rfl
    | cons x xs ih => simp [HAction.destroyed, ih]
  cases r <;>
    simp [EventHandler.cleanup, EventHandler.stop, EventHandler.ctorDefault,
      EventHandler.ctor, List.filterMap_append, hmap, hmap2]

/-- C9: the `EventBase` constructor initializes the condition-variable pointer
to null, and `internal()` on any event whose pointer is null performs no
notification (in particular a never-registered event wakes no listener and
dereferences nothing). -/
theorem internal_null_cv_noop {σ : Type} (st : σ) (tf : σ → Bool) (rf : σ → σ) :
    (EventBase.init st tf rf).cv = none ∧
    EvObj.internal (EventBase.init st tf rf) = none ∧
    ∀ ev : EvObj σ, ev.cv = none → EvObj.internal ev = none := by
  refine ⟨rfl, rfl, ?_⟩
  intro ev hcv
  simp [EvObj.internal, hcv]

/-- Witness for C9 at a concrete event object. -/
theorem internal_null_cv_noop_witness :
    (EventBase.init 0 (fun n => decide (0 < n)) (fun _ => 0)).cv = none ∧
    EvObj.internal (EvObj.mk 3 (fun n => decide (0 < n)) (fun _ => 0) none) = none :=
  ⟨(internal_null_cv_noop 0 (fun n => decide (0 < n)) (fun _ => 0)).1,
   (internal_null_cv_noop 0 (fun n => decide (0 < n)) (fun _ => 0)).2.2
     (EvObj.mk 3 (fun n => decide (0 < n)) (fun _ => 0) none) rfl⟩

/-- C3: every `register_event` rebinds the event's condition-variable pointer
to the registering listener, so after registering one event instance with two
listeners in sequence, `internal()` (the `notify()` hook) notifies exactly the
most recently bound listener's condition variable and not the earlier one. -/
theorem register_event_rebinds_cv {σ : Type} (heap : EventId → EvObj σ)
    (l1 l2 : ListenerState) (lid1 lid2 : ListenerId) (e : EventId)
    (f1 f2 : FuncId) (hne : lid1 ≠ lid2) :
    (∀ (l : ListenerState) (lid : ListenerId) (g : EventId → EvObj σ) (f : FuncId),
      ((Listener.register_event lid l g e f).2 e).cv = some lid) ∧
    EvObj.internal
      ((Listener.register_event lid2 l2
        (Listener.register_event lid1 l1 heap e f1).2 e f2).2 e) = some lid2 ∧
    EvObj.internal
      ((Listener.register_event lid2 l2
        (Listener.register_event lid1 l1 heap e f1).2 e f2).2 e) ≠ some lid1 := by
  refine ⟨?_, ?_, ?_⟩
  · intro l lid g f
    simp [Listener.register_event, EvObj.set_cv]
  · simp [Listener.register_event, EvObj.set_cv, EvObj.internal]
  · simp only [Listener.register_event, EvObj.set_cv, EvObj.internal,
      Function.update_same]
    intro hc
    exact hne (Option.some.inj hc).symm

/-- Witness for C3 at a concrete heap and two concrete listeners. -/
theorem register_event_rebinds_cv_witness :
    EvObj.internal
      ((Listener.register_event 2 Listener.init
        (Listener.register_event 1 Listener.init
          (fun _ => EvObj.mk 0 (fun n => decide (0 < n)) (fun _ => 0) none)
          4 10).2 4 11).2 4) = some 2 ∧
    EvObj.internal
      ((Listener.register_event 2 Listener.init
        (Listener.register_event 1 Listener.init
          (fun _ => EvObj.mk 0 (fun n => decide (0 < n)) (fun _ => 0) none)
          4 10).2 4 11).2 4) ≠ some 1 :=
  ⟨(register_event_rebinds_cv
      (fun _ => EvObj.mk 0 (fun n => decide (0 < n)) (fun _ => 0) none)
      Listener.init Listener.init 1 2 4 10 11 (by decide)).2.1,
   (register_event_rebinds_cv
      (fun _ => EvObj.mk 0 (fun n => decide (0 < n)) (fun _ => 0) none)
      Listener.init Listener.init 1 2 4 10 11 (by decide)).2.2⟩

/-- Helper: a successful `event_has_happened` scan returns the first entry of
the table (in iteration order) whose event is triggered. -/
theorem event_has_happened_first {σ : Type} (heap : EventId → EvObj σ) :
    ∀ (table : RegTable) (e : EventId) (fs : List FuncId),
      Listener.event_has_happened heap table = some (e, fs) →
      ∃ t1 t2, table = t1 ++ (e, fs) :: t2 ∧ (heap e).triggered = true ∧
        ∀ p ∈ t1, (heap p.1).triggered = false := by
  intro table
  induction table with
  | nil => intro e fs h; cases h
  | cons p rest ih =>
    intro e fs h
    obtain ⟨k, gs⟩ := p
    by_cases ht : (heap k).triggered
    · rw [Listener.event_has_happened, if_pos ht] at h
      obtain ⟨hk, hgs⟩ := Prod.mk.injEq .. ▸ Option.some.inj h
      subst hk; subst hgs
      exact ⟨[], rest, rfl, ht, fun q hq => absurd hq (List.not_mem_nil q)⟩
    · rw [Listener.event_has_happened, if_neg ht] at h
      obtain ⟨t1, t2, heq, htrig, hfalse⟩ := ih e fs h
      refine ⟨(k, gs) :: t1, t2, by rw [heq]; rfl, htrig, ?_⟩
      intro q hq
      rcases List.mem_cons.mp hq with hq1 | hq2
      · rw [hq1]
        exact eq_false_of_ne_true ht
      · exact hfalse q hq2

/-- C1: when the wake cycle dispatches event `e` whose registered callbacks
are `[f1, f2]`, the cycle's trace is exactly: call `f1` on `e`, then call
`f2` on `e`, then one `reset()` of `e` — each callback runs exactly once, in
registration order, receiving `e` by reference, and `reset` follows all
callbacks; and if the event satisfies the reset contract (`trigger` is false
on any reset state), `trigger(e)` is false immediately after the cycle. -/
theorem dispatch_cycle_callbacks_then_reset {σ : Type} (heap : EventId → EvObj σ)
    (table : RegTable) (e : EventId) (f1 f2 : FuncId)
    (hfound : Listener.event_has_happened heap table = some (e, [f1, f2])) :
    (Listener.listen_cycle true heap table).2 =
      [DAction.call f1 e, DAction.call f2 e, DAction.reset e] ∧
    ((∀ s, (heap e).trigger ((heap e).reset s) = false) →
      EvObj.triggered ((Listener.listen_cycle true heap table).1 e) = false) := by
  constructor
  · simp [Listener.listen_cycle, hfound]
  · intro hreset
    simp only [Listener.listen_cycle, if_pos, hfound, Function.update_same]
    simpa [EvObj.triggered, EvObj.applyReset] using hreset (heap e).state

/-- Witness for C1: one concrete event (payload a counter, triggered while
positive, reset to zero) with two callbacks. -/
theorem dispatch_cycle_callbacks_then_reset_witness :
    Listener.event_has_happened
      (fun _ => EvObj.mk 5 (fun n => decide (0 < n)) (fun _ => 0) none)
      [(0, [10, 20])] = some (0, [10, 20]) ∧
    (Listener.listen_cycle true
      (fun _ => EvObj.mk 5 (fun n => decide (0 < n)) (fun _ => 0) none)
      [(0, [10, 20])]).2 =
      [DAction.call 10 0, DAction.call 20 0, DAction.reset 0] ∧
    EvObj.triggered ((Listener.listen_cycle true
      (fun _ => EvObj.mk 5 (fun n => decide (0 < n)) (fun _ => 0) none)
      [(0, [10, 20])]).1 0) = false :=
  ⟨by decide,
   (dispatch_cycle_callbacks_then_reset
      (fun _ => EvObj.mk 5 (fun n => decide (0 < n)) (fun _ => 0) none)
      [(0, [10, 20])] 0 10 20 (by decide)).1,
   (dispatch_cycle_callbacks_then_reset
      (fun _ => EvObj.mk 5 (fun n => decide (0 < n)) (fun _ => 0) none)
      [(0, [10, 20])] 0 10 20 (by decide)).2 (fun _ => rfl)⟩

/-- C2: when the running worker's scan succeeds, the event dispatched is the
first triggered entry in table iteration order (all earlier table entries are
untriggered); the cycle's whole trace (its callback calls and its single
`reset`) concerns only that event; and every other event's object, triggered
or not, is left untouched by the cycle. -/
theorem one_event_per_wake_cycle {σ : Type} (heap : EventId → EvObj σ)
    (table : RegTable) (e : EventId) (fs : List FuncId)
    (hfound : Listener.event_has_happened heap table = some (e, fs)) :
    (∃ t1 t2, table = t1 ++ (e, fs) :: t2 ∧ (heap e).triggered = true ∧
      ∀ p ∈ t1, (heap p.1).triggered = false) ∧
    (Listener.listen_cycle true heap table).2 =
      fs.map (fun f => DAction.call f e) ++ [DAction.reset e] ∧
    (∀ a ∈ (Listener.listen_cycle true heap table).2, DAction.eventOf a = e) ∧
    (∀ x, x ≠ e → (Listener.listen_cycle true heap table).1 x = heap x) := by
  refine ⟨event_has_happened_first heap table e fs hfound, ?_, ?_, ?_⟩
  · simp [Listener.listen_cycle, hfound]
  · intro a ha
    simp only [Listener.listen_cycle, if_pos, hfound] at ha
    rcases List.mem_append.mp ha with hcall | hreset
    · obtain ⟨f, _, hfa⟩ := List.mem_map.mp hcall
      rw [hfa.symm]
      rfl
    · rw [List.mem_singleton.mp hreset]
      rfl
  · intro x hx
    simp only [Listener.listen_cycle, if_pos, hfound]
    exact Function.update_noteq hx _ _

/-- Witness for C2: three concrete events, the first untriggered and the next
two triggered; the scan picks the middle one and the last one's object is
untouched. -/
theorem one_event_per_wake_cycle_witness :
    (∃ t1 t2,
      ([(0, [7]), (1, [8]), (2, [9])] : RegTable) = t1 ++ (1, [8]) :: t2 ∧
      EvObj.triggered ((fun x => EvObj.mk (if x = 0 then 0 else 3)
        (fun n => decide (0 < n)) (fun _ => 0) none) 1) = true ∧
      ∀ p ∈ t1, EvObj.triggered ((fun x => EvObj.mk (if x = 0 then 0 else 3)
        (fun n => decide (0 < n)) (fun _ => 0) none) p.1) = false) ∧
    (∀ a ∈ (Listener.listen_cycle true
        (fun x => EvObj.mk (if x = 0 then 0 else 3)
          (fun n => decide (0 < n)) (fun _ => 0) none)
        [(0, [7]), (1, [8]), (2, [9])]).2, DAction.eventOf a = 1) ∧
    (Listener.listen_cycle true
        (fun x => EvObj.mk (if x = 0 then 0 else 3)
          (fun n => decide (0 < n)) (fun _ => 0) none)
        [(0, [7]), (1, [8]), (2, [9])]).1 2 =
      (fun x => EvObj.mk (if x = 0 then 0 else 3)
        (fun n => decide (0 < n)) (fun _ => 0) none) 2 :=
  ⟨(one_event_per_wake_cycle
      (fun x => EvObj.mk (if x = 0 then 0 else 3)
        (fun n => decide (0 < n)) (fun _ => 0) none)
      [(0, [7]), (1, [8]), (2, [9])] 1 [8] (by decide)).1,
   (one_event_per_wake_cycle
      (fun x => EvObj.mk (if x = 0 then 0 else 3)
        (fun n => decide (0 < n)) (fun _ => 0) none)
      [(0, [7]), (1, [8]), (2, [9])] 1 [8] (by decide)).2.2.1,
   (one_event_per_wake_cycle
      (fun x => EvObj.mk (if x = 0 then 0 else 3)
        (fun n => decide (0 < n)) (fun _ => 0) none)
      [(0, [7]), (1, [8]), (2, [9])] 1 [8] (by decide)).2.2.2 2 (by decide)⟩

/-- Helper: two-element unfolding of the sortedness predicate. -/
theorem sortedKeys_cons_cons (a b : EventId) (rest : List EventId) :
    sortedKeys (a :: b :: rest) = true ↔ a < b ∧ sortedKeys (b :: rest) = true := by
  simp [sortedKeys]

/-- Helper: the tail of a sorted key sequence is sorted. -/
theorem sortedKeys_tail (a : EventId) (ks : List EventId)
    (h : sortedKeys (a :: ks) = true) : sortedKeys ks = true := by
  cases ks with
  | nil => rfl
  | cons b rest => exact ((sortedKeys_cons_cons a b rest).mp h).2

/-- Helper: the head of a sorted key sequence is below every later key. -/
theorem sortedKeys_head_lt (ks : List EventId) :
    ∀ a : EventId, sortedKeys (a :: ks) = true → ∀ b ∈ ks, a < b := by
  induction ks with
  | nil => intro a _ b hb; cases hb
  | cons c rest ih =>
    intro a h b hb
    obtain ⟨hac, hcr⟩ := (sortedKeys_cons_cons a c rest).mp h
    rcases List.mem_cons.mp hb with hbc | hbr
    · rw [hbc]; exact hac
    · exact lt_trans hac (ih c hcr b hbr)

/-- Helper: looking up a key absent from the table yields `none`. -/
theorem mapLookup_eq_none (t : RegTable) (e : EventId)
    (h : e ∉ keyList t) : mapLookup t e = none := by
  induction t with
  | nil => rfl
  | cons p rest ih =>
    obtain ⟨k, fs⟩ := p
    have hk : k ≠ e := fun hc => h (by rw [hc]; exact List.mem_cons_self e _)
    have hr : e ∉ keyList rest := fun hc => h (List.mem_cons_of_mem k hc)
    rw [mapLookup, if_neg hk]
    exact ih hr

/-- Helper: the ordered-insert of a key into a key sequence, mirroring the key
effect of `mapInsert`. -/
def keyIns : List EventId → EventId → List EventId
  | [], e => [e]
  | k :: rest, e =>
    if e < k then e :: k :: rest
    else if e = k then k :: rest
    else k :: keyIns rest e

/-- Helper: `mapInsert` acts on keys as `keyIns`. -/
theorem keyList_mapInsert (t : RegTable) (e : EventId) (f : FuncId) :
    keyList (mapInsert t e f) = keyIns (keyList t) e := by
  induction t with
  | nil => rfl
  | cons p rest ih =>
    obtain ⟨k, fs⟩ := p
    by_cases h1 : e < k
    · simp [mapInsert, keyIns, keyList, h1]
    · by_cases h2 : e = k
      · simp [mapInsert, keyIns, keyList, h1, h2]
      · simp only [mapInsert, keyIns, keyList, if_neg h1, if_neg h2, List.map_cons]
        rw [show keyList (mapInsert rest e f) = List.map Prod.fst (mapInsert rest e f) from rfl] at ih
        rw [ih]
        rfl

/-- Helper: ordered insertion preserves sortedness of the key sequence. -/
theorem sortedKeys_keyIns (ks : List EventId) (e : EventId)
    (h : sortedKeys ks = true) : sortedKeys (keyIns ks e) = true := by
  induction ks with
  | nil => rfl
  | cons k rest ih =>
    cases rest with
    | nil =>
      by_cases h1 : e < k
      · simp [keyIns, sortedKeys, h1]
      · by_cases h2 : e = k
        · simp [keyIns, sortedKeys, h1, h2]
        · have hk : k < e := Nat.lt_of_le_of_ne (Nat.not_lt.mp h1) (Ne.symm h2)
          simp [keyIns, sortedKeys, h1, h2, hk]
    | cons c rest2 =>
      obtain ⟨hkc, hcr⟩ := (sortedKeys_cons_cons k c rest2).mp h
      by_cases h1 : e < k
      · rw [keyIns, if_pos h1]
        exact (sortedKeys_cons_cons e k (c :: rest2)).mpr ⟨h1, h⟩
      · by_cases h2 : e = k
        · rw [keyIns, if_neg h1, if_pos h2]
          exact h
        · have hk : k < e := Nat.lt_of_le_of_ne (Nat.not_lt.mp h1) (Ne.symm h2)
          rw [keyIns, if_neg h1, if_neg h2]
          have hrec := ih hcr
          by_cases h3 : e < c
          · rw [keyIns, if_pos h3] at hrec ⊢
            exact (sortedKeys_cons_cons k e (c :: rest2)).mpr ⟨hk, hrec⟩
          · by_cases h4 : e = c
            · rw [keyIns, if_neg h3, if_pos h4] at hrec ⊢
              exact (sortedKeys_cons_cons k c rest2).mpr ⟨hkc, hrec⟩
            · rw [keyIns, if_neg h3, if_neg h4] at hrec ⊢
              exact (sortedKeys_cons_cons k c (keyIns rest2 e)).mpr ⟨hkc, hrec⟩

/-- Helper: `mapInsert` preserves the ordered-map invariant. -/
theorem tableSorted_mapInsert (t : RegTable) (e : EventId) (f : FuncId)
    (h : tableSorted t = true) : tableSorted (mapInsert t e f) = true := by
  rw [tableSorted, keyList_mapInsert]
  exact sortedKeys_keyIns (keyList t) e h

/-- Helper: on a sorted table, `mapInsert` appends the new callback to the
event's existing callback vector (creating it when absent). -/
theorem mapLookup_mapInsert_self (t : RegTable) (e : EventId) (f : FuncId)
    (hs : tableSorted t = true) :
    mapLookup (mapInsert t e f) e = some ((mapLookup t e).getD [] ++ [f]) := by
  induction t with
  | nil => simp [mapInsert, mapLookup]
  | cons p rest ih =>
    obtain ⟨k, fs⟩ := p
    have hsk : sortedKeys (k :: keyList rest) = true := hs
    by_cases h1 : e < k
    · have hnone : mapLookup ((k, fs) :: rest) e = none := by
        apply mapLookup_eq_none
        intro hc
        rcases List.mem_cons.mp hc with hek | her
        · exact absurd hek (Nat.ne_of_lt h1)
        · have hke := sortedKeys_head_lt (keyList rest) k hsk e her
          exact absurd h1 (Nat.lt_asymm hke)
      rw [mapInsert, if_pos h1, mapLookup, if_pos rfl, hnone]
      rfl
    · by_cases h2 : e = k
      · subst h2
        rw [mapInsert, if_neg h1, if_pos rfl, mapLookup, if_pos rfl,
          mapLookup, if_pos rfl]
        rfl
      · have hk : k ≠ e := fun hc => h2 hc.symm
        rw [mapInsert, if_neg h1, if_neg h2, mapLookup, if_neg hk,
          mapLookup, if_neg hk]
        exact ih (sortedKeys_tail k (keyList rest) hsk)

/-- Helper: `mapInsert` does not change the binding of any other key. -/
theorem mapLookup_mapInsert_other (t : RegTable) (e x : EventId) (f : FuncId)
    (hx : x ≠ e) : mapLookup (mapInsert t e f) x = mapLookup t x := by
  induction t with
  | nil =>
    have he : e ≠ x := fun hc => hx hc.symm
    simp [mapInsert, mapLookup, he]
  | cons p rest ih =>
    obtain ⟨k, fs⟩ := p
    have he : e ≠ x := fun hc => hx hc.symm
    by_cases h1 : e < k
    · rw [mapInsert, if_pos h1, mapLookup, if_neg he]
    · by_cases h2 : e = k
      · subst h2
        rw [mapInsert, if_neg h1, if_pos rfl, mapLookup, if_neg he,
          mapLookup, if_neg he]
      · rw [mapInsert, if_neg h1, if_neg h2]
        by_cases h3 : k = x
        · rw [mapLookup, if_pos h3, mapLookup, if_pos h3]
        · rw [mapLookup, if_neg h3, mapLookup, if_neg h3]
          exact ih

/-- C4: `register_event` accumulates — registering the same event twice (with
`f1` then `f2`) on a table satisfying the ordered-map invariant leaves the
event bound to its previous callback vector extended by `[f1, f2]` in
registration order, and the binding of every other event is untouched. -/
theorem register_event_accumulates {σ : Type} (heap : EventId → EvObj σ)
    (l : ListenerState) (lid1 lid2 : ListenerId) (e : EventId) (f1 f2 : FuncId)
    (hs : tableSorted l.event2func = true) :
    mapLookup ((Listener.register_event lid2
        (Listener.register_event lid1 l heap e f1).1
        (Listener.register_event lid1 l heap e f1).2 e f2).1).event2func e =
      some ((mapLookup l.event2func e).getD [] ++ [f1, f2]) ∧
    ∀ x, x ≠ e →
      mapLookup ((Listener.register_event lid2
        (Listener.register_event lid1 l heap e f1).1
        (Listener.register_event lid1 l heap e f1).2 e f2).1).event2func x =
      mapLookup l.event2func x := by
  have htbl : ((Listener.register_event lid2
      (Listener.register_event lid1 l heap e f1).1
      (Listener.register_event lid1 l heap e f1).2 e f2).1).event2func =
      mapInsert (mapInsert l.event2func e f1) e f2 := rfl
  constructor
  · rw [htbl, mapLookup_mapInsert_self _ _ _ (tableSorted_mapInsert _ _ _ hs),
      mapLookup_mapInsert_self _ _ _ hs]
    simp [List.append_assoc]
  · intro x hx
    rw [htbl, mapLookup_mapInsert_other _ _ _ _ hx,
      mapLookup_mapInsert_other _ _ _ _ hx]

/-- Witness for C4 at a concrete sorted table with an existing binding for
the re-registered event and one other event. -/
theorem register_event_accumulates_witness :
    tableSorted (⟨[(0, [5]), (2, [6])], false⟩ : ListenerState).event2func = true ∧
    mapLookup ((Listener.register_event 1
        (Listener.register_event 1 ⟨[(0, [5]), (2, [6])], false⟩
          (fun _ => EvObj.mk 0 (fun n => decide (0 < n)) (fun _ => 0) none) 2 9).1
        (Listener.register_event 1 ⟨[(0, [5]), (2, [6])], false⟩
          (fun _ => EvObj.mk 0 (fun n => decide (0 < n)) (fun _ => 0) none) 2 9).2
        2 10).1).event2func 2 = some [6, 9, 10] ∧
    mapLookup ((Listener.register_event 1
        (Listener.register_event 1 ⟨[(0, [5]), (2, [6])], false⟩
          (fun _ => EvObj.mk 0 (fun n => decide (0 < n)) (fun _ => 0) none) 2 9).1
        (Listener.register_event 1 ⟨[(0, [5]), (2, [6])], false⟩
          (fun _ => EvObj.mk 0 (fun n => decide (0 < n)) (fun _ => 0) none) 2 9).2
        2 10).1).event2func 0 = some [5] :=
  ⟨by decide,
   (register_event_accumulates
      (fun _ => EvObj.mk 0 (fun n => decide (0 < n)) (fun _ => 0) none)
      ⟨[(0, [5]), (2, [6])], false⟩ 1 1 2 9 10 (by decide)).1,
   (register_event_accumulates
      (fun _ => EvObj.mk 0 (fun n => decide (0 < n)) (fun _ => 0) none)
      ⟨[(0, [5]), (2, [6])], false⟩ 1 1 2 9 10 (by decide)).2 0 (by decide)⟩

/-- Helper: running a concatenation of lifetime traces is running them in
sequence. -/
theorem runRegistry_append :
    ∀ (ops ops2 : List RegOp) (inst : List Nat),
      runRegistry inst (ops ++ ops2) = runRegistry (runRegistry inst ops) ops2 := by
  intro ops
  induction ops with
  | nil => intro ops2 inst; rfl
  | cons op rest ih =>
    intro ops2 inst
    cases op with
    | construct x => rw [List.cons_append, runRegistry, runRegistry, ih]
    | destruct x => rw [List.cons_append, runRegistry, runRegistry, ih]

/-- Helper: along any well-formed lifetime trace, registry membership at the
end coincides with being alive at the end, for every starting registry free of
duplicates. -/
theorem registry_mem_iff_live :
    ∀ (ops : List RegOp) (inst : List Nat), inst.Nodup → wfOps inst ops = true →
      ∀ a : Nat, (a ∈ runRegistry inst ops ↔ liveAfter (decide (a ∈ inst)) ops a = true) := by
  intro ops
  induction ops with
  | nil =>
    intro inst _ _ a
    simp [runRegistry, liveAfter]
  | cons op rest ih =>
    intro inst hnd hw a
    cases op with
    | construct x =>
      have hw2 : (x ∈ inst → False) ∧ wfOps (Event_construct inst x) rest = true := by
        simpa [wfOps, Bool.and_eq_true] using hw
      have hxnotin : x ∉ inst := hw2.1
      have hnd2 : (Event_construct inst x).Nodup := by
        simp [Event_construct, List.nodup_append, hnd, hxnotin]
      have hdec : decide (a ∈ Event_construct inst x) =
          (if x = a then true else decide (a ∈ inst)) := by
        by_cases hxa : x = a
        · subst hxa
          simp [Event_construct]
        · have hax : a ≠ x := fun hc => hxa hc.symm
          rw [if_neg hxa]
          simp [Event_construct, decide_eq_decide, List.mem_append, hax]
      rw [runRegistry, liveAfter, ← hdec]
      exact ih (Event_construct inst x) hnd2 hw2.2 a
    | destruct x =>
      have hw2 : x ∈ inst ∧ wfOps (Event_destruct inst x) rest = true := by
        simpa [wfOps, Bool.and_eq_true] using hw
      have hnd2 : (Event_destruct inst x).Nodup := hnd.erase x
      have hdec : decide (a ∈ Event_destruct inst x) =
          (if x = a then false else decide (a ∈ inst)) := by
        by_cases hxa : x = a
        · subst hxa
          simp [Event_destruct, hnd.not_mem_erase]
        · have hax : a ≠ x := fun hc => hxa hc.symm
          rw [if_neg hxa]
          simp [Event_destruct, decide_eq_decide, hnd.mem_erase_iff, hax]
      rw [runRegistry, liveAfter, ← hdec]
      exact ih (Event_destruct inst x) hnd2 hw2.2 a

/-- C8: along every well-formed sequence of `Event<T>` constructor/destructor
calls (constructors at fresh addresses, destructors on live instances), an
address is in the per-type instance registry exactly when its instance is
alive — constructed and not destroyed since — so no entry survives a
destroyed instance and none is missing for a live one; moreover the
constructor appends the new instance at the end of the registry (insertion
order). -/
theorem registry_mirrors_lifetime (ops : List RegOp) (a : Nat)
    (hw : wfOps [] ops = true) :
    ((a ∈ runRegistry [] ops) ↔ liveAfter false ops a = true) ∧
    runRegistry [] (ops ++ [RegOp.construct a]) = runRegistry [] ops ++ [a] := by
  constructor
  · have h := registry_mem_iff_live ops [] List.nodup_nil hw a
    simpa using h
  · rw [runRegistry_append]
    rfl

/-- Witness for C8: construct two instances, destroy the first; its address is
no longer registered and the trace is well formed. -/
theorem registry_mirrors_lifetime_witness :
    wfOps [] [RegOp.construct 3, RegOp.construct 5, RegOp.destruct 3] = true ∧
    (((3 : Nat) ∈ runRegistry []
        [RegOp.construct 3, RegOp.construct 5, RegOp.destruct 3]) ↔
      liveAfter false [RegOp.construct 3, RegOp.construct 5, RegOp.destruct 3] 3 = true) :=
  ⟨by decide,
   (registry_mirrors_lifetime
      [RegOp.construct 3, RegOp.construct 5, RegOp.destruct 3] 3 (by decide)).1⟩
